import Mathlib

/-
  Verification of the ring-builder and overlay pipeline of the
  desmatamento-proximidade-estradas-rr repository.

  The pipeline stages verified here are:
    * scripts/03_create_buffers.py  (ring builder: chunked road buffering,
      ring differencing, ring records with ring_id / min_km / max_km)
    * scripts/04_intersection.py    (overlay engine, variant A)
    * scripts/05_precompute_intersections.py (overlay engine, variant B)
    * scripts/06_build_duckdb.py    (aggregate store builder)

  Geometries are modelled in exact point-set semantics: a geometry is the
  set of points of the plane it covers, the shapely operations
  `buffer`, `unary_union`, `intersection`, `difference` become the
  corresponding operations on point sets, and "empty" means the empty set.
  Floating-point / geometric tolerance questions disappear in this model:
  equalities of geometries are exact.
-/

namespace RoadRings

open Classical

/-- A point of the plane (the scripts work in the metric CRS EPSG:5880,
so coordinates are metres). -/
abbrev Pt : Type := EuclideanSpace ℝ (Fin 2)

/-- A geometry, modelled as the set of points it covers. -/
abbrev Geometry : Type := Set Pt

/-- shapely `geom.buffer(d)` for `d ≥ 0`: every point within distance `d`
of the geometry (03_create_buffers.py line 76 buffers each road segment). -/
def buffer (g : Geometry) (d : ℝ) : Geometry := {p | ∃ q ∈ g, dist p q ≤ d}

/-- `shapely.ops.unary_union` of a list of geometries: their union
(03_create_buffers.py lines 78 and 89). -/
def unary_union (gs : List Geometry) : Geometry := gs.foldr (· ∪ ·) ∅

theorem mem_unary_union {gs : List Geometry} {p : Pt} :
    p ∈ unary_union gs ↔ ∃ g ∈ gs, p ∈ g := by
  induction gs with
  | nil => simp [unary_union]
  | cons g gs ih =>
    simp only [unary_union, List.foldr_cons, Set.mem_union, List.mem_cons]
    constructor
    · rintro (h | h)
      · exact ⟨g, Or.inl rfl, h⟩
      · obtain ⟨g, hg, hp⟩ := ih.mp h
        exact ⟨g, Or.inr hg, hp⟩
    · rintro ⟨g, (rfl | hg), hp⟩
      · exact Or.inl hp
      · exact Or.inr (ih.mpr ⟨g, hg, hp⟩)

/-- The successive batches `l[i : i+c]` visited by the loop
`for i in range(0, total, chunk_size)` in `buffer_in_chunks`
(03_create_buffers.py lines 72-73).  Python raises `ValueError` on a zero
step; for `c = 0` we return `[]`, which is never hit under the
`1 ≤ chunk_size` hypotheses used below. -/
def chunksOf (c : ℕ) : List α → List (List α)
  | [] => []
  | x :: xs =>
    if h : c = 0 then []
    else (x :: xs).take c :: chunksOf c ((x :: xs).drop c)
termination_by l => l.length
decreasing_by
  simp only [List.length_drop, List.length_cons]
  omega

theorem chunksOf_flatten_aux {c : ℕ} (hc : 1 ≤ c) :
    ∀ (n : ℕ) (l : List α), l.length ≤ n → (chunksOf c l).flatten = l := by
  intro n
  induction n with
  | zero =>
    intro l hl
    rw [List.length_eq_zero.mp (Nat.le_zero.mp hl)]
    simp [chunksOf]
  | succ n ih =>
    intro l hl
    match l with
    | [] => simp [chunksOf]
    | x :: xs =>
      rw [chunksOf, dif_neg (by omega), List.flatten_cons,
        ih ((x :: xs).drop c) (by simp at hl ⊢; omega),
        List.take_append_drop]

theorem chunksOf_flatten {c : ℕ} (hc : 1 ≤ c) (l : List α) :
    (chunksOf c l).flatten = l :=
  chunksOf_flatten_aux hc l.length l le_rfl

/-- The `parts` accumulator of `buffer_in_chunks` (03_create_buffers.py
lines 71-85): per batch, buffer every segment of the batch, union the
batch, clip the union to the AOI, keep the clip when it is non-empty. -/
noncomputable def bufferParts (roads_m : List Geometry) (aoi_m : Geometry)
    (d_m : ℝ) (chunk_size : ℕ) : List Geometry :=
  (chunksOf chunk_size roads_m).filterMap (fun lot =>
    let lot_clip := unary_union (lot.map (fun g => buffer g d_m)) ∩ aoi_m
    if lot_clip.Nonempty then some lot_clip else none)

/-- `buffer_in_chunks` (03_create_buffers.py lines 65-89): return `None`
when no batch produced anything, else the union of the kept parts. -/
noncomputable def buffer_in_chunks (roads_m : List Geometry) (aoi_m : Geometry)
    (d_m : ℝ) (chunk_size : ℕ) : Option Geometry :=
  if (bufferParts roads_m aoi_m d_m chunk_size).isEmpty then none
  else some (unary_union (bufferParts roads_m aoi_m d_m chunk_size))

/-- The total buffer union for one distance, clipped to the AOI: the
geometry `buffer_in_chunks` computes when it is non-empty. -/
def bufferUnionClip (roads : List Geometry) (aoi : Geometry) (d : ℝ) : Geometry :=
  unary_union (roads.map (fun g => buffer g d)) ∩ aoi

/-- Modelled from the spec (section 4.1 step 1): the single non-chunked
buffer-union-clip that the chunked computation must agree with. -/
noncomputable def bufferSinglePass (roads : List Geometry) (aoi : Geometry)
    (d : ℝ) : Option Geometry :=
  if (bufferUnionClip roads aoi d).Nonempty then
    some (bufferUnionClip roads aoi d)
  else none

/-- Python `int(d)` for the `float` distances: truncation towards zero,
used by the `f-string` labels of 03_create_buffers.py lines 130-140. -/
def truncInt (q : ℚ) : ℤ := if q < 0 then ⌈q⌉ else ⌊q⌋

/-- The label of a bounded ring (03_create_buffers.py lines 130 and 135). -/
def ringLabel (a b : ℚ) : String :=
  toString (truncInt a) ++ "-" ++ toString (truncInt b) ++ "km"

/-- The label of the outermost, open-ended ring
(03_create_buffers.py line 140). -/
def lastLabel (d : ℚ) : String := ">" ++ toString (truncInt d) ++ "km"

/-- One ring record of `buffer_rings.shp`: the dicts appended to `rings`
in 03_create_buffers.py lines 130-140 (`max_km = None` becomes `none`). -/
structure RingRec where
  ring_id : String
  min_km : ℚ
  max_km : Option ℚ
  geometry : Geometry

/-- The intermediate rings of the loop of 03_create_buffers.py lines
132-136: for each further buffer `(d, g)` emit the ring
`prev_d .. d` with geometry `g.difference(prev_g)`. -/
def midRings (prev_d : ℚ) (prev_g : Geometry) :
    List (ℚ × Geometry) → List RingRec
  | [] => []
  | (d, g) :: rest =>
    ⟨ringLabel prev_d d, prev_d, some d, g \ prev_g⟩ :: midRings d g rest

/-- Ring construction of 03_create_buffers.py lines 126-140: the first
ring is the whole first buffer, each further ring is the set difference
with the previous buffer, and the final ring is the AOI minus the last
buffer (`buffers[-1]`). -/
def buildRings (aoi : Geometry) : List (ℚ × Geometry) → List RingRec
  | [] => []
  | (d0, g0) :: rest =>
    let lastBuf := ((d0, g0) :: rest).getLast (List.cons_ne_nil _ _)
    ⟨ringLabel 0 d0, 0, some d0, g0⟩ ::
      (midRings d0 g0 rest ++
        [⟨lastLabel lastBuf.1, lastBuf.1, none, aoi \ lastBuf.2⟩])

/-- `sorted(set(args.dist))` (03_create_buffers.py line 108): the
distance list is deduplicated and sorted ascending, silently. -/
def sortDedup (l : List ℚ) : List ℚ := l.dedup.insertionSort (· ≤ ·)

/-- The `buffers` list of 03_create_buffers.py lines 109-121: for each
distance (km) compute the chunked buffer of `d * 1000` metres and skip
distances whose buffer came back empty (`None`). -/
noncomputable def buffersOf (roads : List Geometry) (aoi : Geometry)
    (dists_km : List ℚ) (chunk_size : ℕ) : List (ℚ × Geometry) :=
  dists_km.filterMap (fun (d : ℚ) =>
    (buffer_in_chunks roads aoi ((d : ℝ) * 1000) chunk_size).map (fun g => (d, g)))

/-- The ring-building stage of `main` in 03_create_buffers.py (lines
106-142), starting from the distance list as parsed: sort and dedup the
distances, build the per-distance buffers, exit with an error when no
buffer could be generated (line 124), else build the ring records.  The
`Except.error` value models `err(...)`, which prints and exits non-zero. -/
noncomputable def mainRings (roads : List Geometry) (aoi : Geometry)
    (dists : List ℚ) (chunk_size : ℕ) : Except String (List RingRec) :=
  if (buffersOf roads aoi (sortDedup dists) chunk_size).isEmpty then
    Except.error "Nao foi possivel gerar nenhum buffer."
  else
    Except.ok (buildRings aoi (buffersOf roads aoi (sortDedup dists) chunk_size))

/-! ### The chunked buffer computation equals the single-pass one -/

theorem unary_union_nil : unary_union [] = (∅ : Geometry) := rfl

theorem unary_union_cons (g : Geometry) (gs : List Geometry) :
    unary_union (g :: gs) = g ∪ unary_union gs := rfl

theorem unary_union_append (gs hs : List Geometry) :
    unary_union (gs ++ hs) = unary_union gs ∪ unary_union hs := by
  induction gs with
  | nil => simp [unary_union_nil, unary_union]
  | cons g gs ih =>
    simp [unary_union_cons, ih, Set.union_assoc]

theorem unary_union_flatten (ls : List (List Geometry)) :
    unary_union (ls.map unary_union) = unary_union ls.flatten := by
  induction ls with
  | nil => simp
  | cons l ls ih =>
    simp [unary_union_cons, unary_union_append, ih]

theorem unary_union_inter (gs : List Geometry) (a : Geometry) :
    unary_union (gs.map (· ∩ a)) = unary_union gs ∩ a := by
  induction gs with
  | nil => simp [unary_union_nil]
  | cons g gs ih =>
    simp [unary_union_cons, ih, Set.union_inter_distrib_right]

/-- Dropping the empty geometries of a list does not change its union. -/
theorem unary_union_filter_nonempty (gs : List Geometry) :
    unary_union (gs.filterMap (fun g => if g.Nonempty then some g else none)) =
      unary_union gs := by
  induction gs with
  | nil => rfl
  | cons g gs ih =>
    by_cases hg : g.Nonempty
    · simp [List.filterMap_cons, hg, unary_union_cons, ih]
    · rw [Set.not_nonempty_iff_eq_empty] at hg
      subst hg
      simp [List.filterMap_cons, unary_union_cons, ih]

/-- The `parts` list of `buffer_in_chunks` is empty exactly when the full
clipped buffer union is empty. -/
theorem parts_empty_iff (roads : List Geometry) (aoi : Geometry) (d : ℝ)
    {c : ℕ} (hc : 1 ≤ c) :
    (bufferParts roads aoi d c).isEmpty = true ↔
      ¬ (bufferUnionClip roads aoi d).Nonempty := by
  rw [bufferParts, List.isEmpty_iff, List.filterMap_eq_nil]
  constructor
  · intro h hne
    obtain ⟨p, hp⟩ := hne
    obtain ⟨hpu, hpa⟩ := hp
    obtain ⟨g, hg, hpg⟩ := mem_unary_union.mp hpu
    obtain ⟨r, hr, rfl⟩ := List.mem_map.mp hg
    have hrj : r ∈ (chunksOf c roads).flatten := by
      rw [chunksOf_flatten hc]; exact hr
    obtain ⟨lot, hlot, hrlot⟩ := List.mem_flatten.mp hrj
    have := h lot hlot
    simp only at this
    rw [if_pos] at this
    · exact absurd this (by simp)
    · exact ⟨p, Set.mem_inter (mem_unary_union.mpr
        ⟨buffer r d, List.mem_map.mpr ⟨r, hrlot, rfl⟩, hpg⟩) hpa⟩
  · intro h lot hlot
    simp only
    rw [if_neg]
    intro ⟨p, hp⟩
    apply h
    obtain ⟨hpu, hpa⟩ := hp
    obtain ⟨g, hg, hpg⟩ := mem_unary_union.mp hpu
    obtain ⟨r, hr, rfl⟩ := List.mem_map.mp hg
    refine ⟨p, Set.mem_inter (mem_unary_union.mpr ⟨buffer r d, ?_, hpg⟩) hpa⟩
    refine List.mem_map.mpr ⟨r, ?_, rfl⟩
    rw [← chunksOf_flatten hc roads]
    exact List.mem_flatten.mpr ⟨lot, hlot, hr⟩

/-- The union of the per-chunk clipped unions is the full clipped union. -/
theorem parts_union_eq (roads : List Geometry) (aoi : Geometry) (d : ℝ)
    {c : ℕ} (hc : 1 ≤ c) :
    unary_union (bufferParts roads aoi d c) = bufferUnionClip roads aoi d := by
  rw [bufferParts]
  have h1 : ((chunksOf c roads).map (fun lot =>
      unary_union (lot.map (fun g => buffer g d)) ∩ aoi)).filterMap
        (fun g => if g.Nonempty then some g else none) =
      (chunksOf c roads).filterMap (fun lot =>
        let lot_clip := unary_union (lot.map (fun g => buffer g d)) ∩ aoi
        if lot_clip.Nonempty then some lot_clip else none) := by
    rw [List.filterMap_map]
    rfl
  rw [← h1, unary_union_filter_nonempty]
  have h2 : (chunksOf c roads).map (fun lot =>
      unary_union (lot.map (fun g => buffer g d)) ∩ aoi) =
      ((chunksOf c roads).map (fun lot =>
        unary_union (lot.map (fun g => buffer g d)))).map (· ∩ aoi) := by
    rw [List.map_map]; rfl
  rw [h2, unary_union_inter]
  have h3 : (chunksOf c roads).map (fun lot =>
      unary_union (lot.map (fun g => buffer g d))) =
      ((chunksOf c roads).map (fun lot => lot.map (fun g => buffer g d))).map
        unary_union := by
    rw [List.map_map]; rfl
  rw [h3, unary_union_flatten, ← List.map_flatten, chunksOf_flatten hc]
  rfl

/-- Core refinement: for any chunk size `≥ 1`, `buffer_in_chunks` computes
exactly the single-pass buffer-union-clip. -/
theorem buffer_in_chunks_eq (roads : List Geometry) (aoi : Geometry)
    (d : ℝ) {c : ℕ} (hc : 1 ≤ c) :
    buffer_in_chunks roads aoi d c = bufferSinglePass roads aoi d := by
  unfold buffer_in_chunks bufferSinglePass
  by_cases h : (bufferUnionClip roads aoi d).Nonempty
  · rw [if_neg, if_pos h, parts_union_eq roads aoi d hc]
    intro hemp
    exact (parts_empty_iff roads aoi d hc).mp hemp h
  · rw [if_pos ((parts_empty_iff roads aoi d hc).mpr h), if_neg h]

/-! ### Shape lemmas about the ring records -/

theorem midRings_length (prev_d : ℚ) (prev_g : Geometry)
    (l : List (ℚ × Geometry)) : (midRings prev_d prev_g l).length = l.length := by
  induction l generalizing prev_d prev_g with
  | nil => rfl
  | cons x rest ih => simp [midRings, ih]

theorem midRings_map_min (prev_d : ℚ) (prev_g : Geometry)
    (l : List (ℚ × Geometry)) :
    (midRings prev_d prev_g l).map RingRec.min_km ++
        [(((prev_d, prev_g) :: l).getLast (List.cons_ne_nil _ _)).1] =
      prev_d :: l.map Prod.fst := by
  induction l generalizing prev_d prev_g with
  | nil => rfl
  | cons x rest ih =>
    obtain ⟨d, g⟩ := x
    simp only [midRings, List.map_cons, List.cons_append, List.cons.injEq,
      true_and]
    rw [List.getLast_cons (List.cons_ne_nil _ _)]
    exact ih d g

theorem midRings_map_max (prev_d : ℚ) (prev_g : Geometry)
    (l : List (ℚ × Geometry)) :
    (midRings prev_d prev_g l).map RingRec.max_km =
      l.map (fun x => some x.1) := by
  induction l generalizing prev_d prev_g with
  | nil => rfl
  | cons x rest ih =>
    obtain ⟨d, g⟩ := x
    simp [midRings, ih]

theorem midRings_map_id (prev_d : ℚ) (prev_g : Geometry)
    (l : List (ℚ × Geometry)) :
    (midRings prev_d prev_g l).map RingRec.ring_id =
      List.zipWith ringLabel (prev_d :: l.map Prod.fst) (l.map Prod.fst) := by
  induction l generalizing prev_d prev_g with
  | nil => rfl
  | cons x rest ih =>
    obtain ⟨d, g⟩ := x
    simp [midRings, ih]

/-- Successive set differences along a list of geometries, starting from
`prev`: the geometric content of the ring loop. -/
def diffChain (prev : Geometry) : List Geometry → List Geometry
  | [] => []
  | g :: rest => (g \ prev) :: diffChain g rest

theorem midRings_map_geometry (prev_d : ℚ) (prev_g : Geometry)
    (l : List (ℚ × Geometry)) :
    (midRings prev_d prev_g l).map RingRec.geometry =
      diffChain prev_g (l.map Prod.snd) := by
  induction l generalizing prev_d prev_g with
  | nil => rfl
  | cons x rest ih =>
    obtain ⟨d, g⟩ := x
    simp [midRings, diffChain, ih]

theorem diffChain_append_last (l : List Geometry) (prev a : Geometry) :
    diffChain prev (l ++ [a]) =
      diffChain prev l ++ [a \ (prev :: l).getLast (List.cons_ne_nil _ _)] := by
  induction l generalizing prev with
  | nil => rfl
  | cons g rest ih =>
    simp only [List.cons_append, diffChain, List.cons.injEq, true_and]
    rw [List.getLast_cons (List.cons_ne_nil _ _)]
    exact ih g

/-- Every element of a diff chain starting at `g` is disjoint from `g`. -/
theorem diffChain_disjoint_head {g : Geometry} {l : List Geometry}
    (hch : List.Chain' (· ⊆ ·) (g :: l)) :
    ∀ s ∈ diffChain g l, s ∩ g = ∅ := by
  induction l generalizing g with
  | nil => intro s hs; cases hs
  | cons h t ih =>
    rw [List.chain'_cons] at hch
    obtain ⟨hgh, hcht⟩ := hch
    intro s hs
    rw [diffChain, List.mem_cons] at hs
    rcases hs with rfl | hs
    · exact Set.diff_inter_self
    · have hsh := ih hcht s hs
      apply Set.eq_empty_of_subset_empty
      intro p hp
      rw [← hsh]
      exact ⟨hp.1, hgh hp.2⟩

/-- The elements of a diff chain along a `⊆`-chain are pairwise disjoint. -/
theorem diffChain_pairwise {prev : Geometry} {l : List Geometry}
    (hch : List.Chain' (· ⊆ ·) (prev :: l)) :
    (diffChain prev l).Pairwise (fun a b => a ∩ b = ∅) := by
  induction l generalizing prev with
  | nil => exact List.Pairwise.nil
  | cons g t ih =>
    rw [List.chain'_cons] at hch
    obtain ⟨hpg, hcht⟩ := hch
    refine List.Pairwise.cons ?_ (ih hcht)
    intro s hs
    have hsg := diffChain_disjoint_head hcht s hs
    apply Set.eq_empty_of_subset_empty
    intro p hp
    rw [← hsg]
    exact ⟨hp.2, hp.1.1⟩

/-- Telescoping: the union of a diff chain together with its starting
geometry is the last geometry of the chain. -/
theorem diffChain_union {prev : Geometry} {l : List Geometry}
    (hch : List.Chain' (· ⊆ ·) (prev :: l)) :
    unary_union (diffChain prev l) ∪ prev =
      (prev :: l).getLast (List.cons_ne_nil _ _) := by
  induction l generalizing prev with
  | nil => simp [diffChain, unary_union_nil]
  | cons g t ih =>
    rw [List.chain'_cons] at hch
    obtain ⟨hpg, hcht⟩ := hch
    rw [List.getLast_cons (List.cons_ne_nil _ _), ← ih hcht]
    simp only [diffChain, unary_union_cons]
    rw [Set.union_assoc, Set.union_comm (unary_union (diffChain g t)) prev,
      ← Set.union_assoc, Set.diff_union_self,
      Set.union_eq_self_of_subset_right hpg, Set.union_comm g _]

/-! ### Monotonicity of the buffers -/

theorem buffer_mono (g : Geometry) {d e : ℝ} (h : d ≤ e) :
    buffer g d ⊆ buffer g e := by
  rintro p ⟨q, hq, hpq⟩
  exact ⟨q, hq, le_trans hpq h⟩

theorem bufferUnionClip_mono (roads : List Geometry) (aoi : Geometry)
    {d e : ℝ} (h : d ≤ e) :
    bufferUnionClip roads aoi d ⊆ bufferUnionClip roads aoi e := by
  rintro p ⟨hpu, hpa⟩
  refine ⟨?_, hpa⟩
  obtain ⟨g, hg, hpg⟩ := mem_unary_union.mp hpu
  obtain ⟨r, hr, rfl⟩ := List.mem_map.mp hg
  exact mem_unary_union.mpr
    ⟨buffer r e, List.mem_map.mpr ⟨r, hr, rfl⟩, buffer_mono r h hpg⟩

theorem bufferUnionClip_subset_aoi (roads : List Geometry) (aoi : Geometry)
    (d : ℝ) : bufferUnionClip roads aoi d ⊆ aoi :=
  Set.inter_subset_right

/-! ### Normal form of `mainRings` on a valid input -/

theorem sortDedup_eq_self {l : List ℚ} (h : List.Sorted (· < ·) l) :
    sortDedup l = l := by
  rw [sortDedup, List.Nodup.dedup h.nodup]
  exact List.Sorted.insertionSort_eq (h.imp le_of_lt)

theorem buffersOf_eq_map (roads : List Geometry) (aoi : Geometry)
    {dists : List ℚ} {c : ℕ} (hc : 1 ≤ c)
    (hbuf : ∀ d ∈ dists, (bufferUnionClip roads aoi ((d : ℝ) * 1000)).Nonempty) :
    buffersOf roads aoi dists c =
      dists.map (fun (d : ℚ) => (d, bufferUnionClip roads aoi ((d : ℝ) * 1000))) := by
  induction dists with
  | nil => rfl
  | cons d rest ih =>
    rw [buffersOf, List.filterMap_cons]
    have hbd : (bufferUnionClip roads aoi ((d : ℝ) * 1000)).Nonempty :=
      hbuf d (List.mem_cons_self d rest)
    rw [buffer_in_chunks_eq roads aoi _ hc, bufferSinglePass, if_pos hbd]
    simp only [Option.map_some']
    rw [← buffersOf, ih (fun e he => hbuf e (List.mem_cons_of_mem d he)),
      List.map_cons]

/-- On a sorted positive distance list whose buffers are all non-empty,
`mainRings` succeeds and returns exactly the rings built from the full
buffer-union-clips. -/
theorem mainRings_eq_ok (roads : List Geometry) (aoi : Geometry)
    {dists : List ℚ} {c : ℕ} (hc : 1 ≤ c)
    (hsorted : List.Sorted (· < ·) dists) (hne : dists ≠ [])
    (hbuf : ∀ d ∈ dists, (bufferUnionClip roads aoi ((d : ℝ) * 1000)).Nonempty) :
    mainRings roads aoi dists c =
      Except.ok (buildRings aoi
        (dists.map (fun (d : ℚ) => (d, bufferUnionClip roads aoi ((d : ℝ) * 1000))))) := by
  rw [mainRings, sortDedup_eq_self hsorted, buffersOf_eq_map roads aoi hc hbuf,
    if_neg]
  cases dists with
  | nil => exact absurd rfl hne
  | cons a l => simp

theorem buildRings_cons (aoi : Geometry) (d0 : ℚ) (g0 : Geometry)
    (rest : List (ℚ × Geometry)) :
    buildRings aoi ((d0, g0) :: rest) =
      ⟨ringLabel 0 d0, 0, some d0, g0⟩ ::
        (midRings d0 g0 rest ++
          [⟨lastLabel (((d0, g0) :: rest).getLast (List.cons_ne_nil _ _)).1,
            (((d0, g0) :: rest).getLast (List.cons_ne_nil _ _)).1, none,
            aoi \ (((d0, g0) :: rest).getLast (List.cons_ne_nil _ _)).2⟩]) := rfl

theorem buildRings_length (aoi : Geometry) (bl : List (ℚ × Geometry))
    (h : bl ≠ []) : (buildRings aoi bl).length = bl.length + 1 := by
  match bl with
  | (d0, g0) :: rest =>
    rw [buildRings_cons]
    simp [midRings_length]

theorem buildRings_map_min (aoi : Geometry) (bl : List (ℚ × Geometry))
    (h : bl ≠ []) :
    (buildRings aoi bl).map RingRec.min_km = 0 :: bl.map Prod.fst := by
  match bl with
  | (d0, g0) :: rest =>
    rw [buildRings_cons, List.map_cons, List.map_append, List.map_cons,
      List.map_nil, List.map_cons]
    exact congrArg (0 :: ·) (midRings_map_min d0 g0 rest)

theorem buildRings_map_max (aoi : Geometry) (bl : List (ℚ × Geometry))
    (h : bl ≠ []) :
    (buildRings aoi bl).map RingRec.max_km =
      (bl.map Prod.fst).map some ++ [none] := by
  match bl with
  | (d0, g0) :: rest =>
    rw [buildRings_cons]
    simp only [List.map_cons, List.map_append, List.map_cons, List.map_nil,
      List.cons_append, List.cons.injEq, true_and]
    rw [midRings_map_max, List.map_map]
    rfl

theorem buildRings_map_id (aoi : Geometry) (bl : List (ℚ × Geometry))
    (h : bl ≠ []) :
    (buildRings aoi bl).map RingRec.ring_id =
      ringLabel 0 (bl.head h).1 ::
        (List.zipWith ringLabel (bl.map Prod.fst) (bl.map Prod.fst).tail ++
          [lastLabel (bl.getLast h).1]) := by
  match bl with
  | (d0, g0) :: rest =>
    rw [buildRings_cons]
    simp only [List.map_cons, List.map_append, List.map_cons, List.map_nil,
      List.head_cons, List.cons.injEq, true_and]
    rw [midRings_map_id]
    rfl

theorem buildRings_map_geometry (aoi : Geometry) (bl : List (ℚ × Geometry))
    (h : bl ≠ []) :
    (buildRings aoi bl).map RingRec.geometry =
      diffChain ∅ (bl.map Prod.snd ++ [aoi]) := by
  match bl with
  | (d0, g0) :: rest =>
    rw [buildRings_cons]
    simp only [List.map_cons, List.map_append, List.map_cons, List.map_nil,
      List.cons_append]
    rw [midRings_map_geometry, diffChain, Set.diff_empty,
      diffChain_append_last]
    have hlast : (((d0, g0) :: rest).getLast (List.cons_ne_nil _ _)).2 =
        (g0 :: rest.map Prod.snd).getLast (List.cons_ne_nil _ _) :=
      (List.getLast_map Prod.snd ((d0, g0) :: rest) (by simp)).symm
    rw [hlast]

/-! ### The chain of buffers is increasing and ends inside the AOI -/

theorem bufferChain (roads : List Geometry) (aoi : Geometry) {dists : List ℚ}
    (hsorted : List.Sorted (· < ·) dists) :
    List.Chain' (· ⊆ ·)
      ((∅ : Geometry) ::
        (dists.map (fun (d : ℚ) => bufferUnionClip roads aoi ((d : ℝ) * 1000)) ++
          [aoi])) := by
  rw [List.chain'_cons']
  refine ⟨fun b _ => Set.empty_subset b, ?_⟩
  rw [List.chain'_append]
  refine ⟨?_, List.chain'_singleton _, ?_⟩
  · rw [List.chain'_map]
    refine List.Chain'.imp ?_ (List.Pairwise.chain' hsorted)
    intro a b hab
    refine bufferUnionClip_mono roads aoi ?_
    have hab' : (a : ℝ) ≤ (b : ℝ) := by exact_mod_cast le_of_lt hab
    nlinarith
  · intro x hx y hy
    simp only [List.head?_cons, Option.mem_def, Option.some.injEq] at hy
    subst hy
    have hxmem : x ∈ dists.map
        (fun (d : ℚ) => bufferUnionClip roads aoi ((d : ℝ) * 1000)) :=
      List.mem_of_mem_getLast? hx
    obtain ⟨d, _, rfl⟩ := List.mem_map.mp hxmem
    exact bufferUnionClip_subset_aoi roads aoi _

/-- C1: for every AOI, road set and valid ascending distance list whose
per-distance clipped buffer unions are all non-empty, the rings produced
by the ring builder are pairwise non-overlapping and their union is
exactly the AOI.  In the exact point-set semantics the tolerance is zero. -/
theorem C1_ring_partition (roads : List Geometry) (aoi : Geometry)
    {dists : List ℚ} {c : ℕ} (hc : 1 ≤ c)
    (hsorted : List.Sorted (· < ·) dists) (hne : dists ≠ [])
    (hbuf : ∀ d ∈ dists, (bufferUnionClip roads aoi ((d : ℝ) * 1000)).Nonempty)
    (rings : List RingRec)
    (hok : mainRings roads aoi dists c = Except.ok rings) :
    rings.Pairwise (fun r s => r.geometry ∩ s.geometry = ∅) ∧
      unary_union (rings.map RingRec.geometry) = aoi := by
  rw [mainRings_eq_ok roads aoi hc hsorted hne hbuf] at hok
  injection hok with hok
  subst hok
  have hblne : dists.map
      (fun (d : ℚ) => (d, bufferUnionClip roads aoi ((d : ℝ) * 1000))) ≠ [] := by
    intro hnil
    exact hne (List.map_eq_nil_iff.mp hnil)
  have hsnd : (dists.map
        (fun (d : ℚ) => (d, bufferUnionClip roads aoi ((d : ℝ) * 1000)))).map
          Prod.snd =
      dists.map (fun (d : ℚ) => bufferUnionClip roads aoi ((d : ℝ) * 1000)) := by
    rw [List.map_map]; rfl
  have hch := bufferChain roads aoi hsorted
  have hgeo := buildRings_map_geometry aoi _ hblne
  rw [hsnd] at hgeo
  constructor
  · have hpw := diffChain_pairwise hch
    rw [← hgeo] at hpw
    exact (List.pairwise_map).mp hpw
  · rw [hgeo]
    have hun := diffChain_union hch
    rw [Set.union_empty] at hun
    rw [hun]
    exact List.getLast_append_singleton
      ((∅ : Geometry) ::
        dists.map (fun (d : ℚ) => bufferUnionClip roads aoi ((d : ℝ) * 1000)))

theorem map_fst_pairs (roads : List Geometry) (aoi : Geometry) (l : List ℚ) :
    (l.map (fun (d : ℚ) => (d, bufferUnionClip roads aoi ((d : ℝ) * 1000)))).map
      Prod.fst = l := by
  induction l with
  | nil => rfl
  | cons a t ih => simp only [List.map_cons, ih]

/-- C2: on a valid ascending positive distance list with non-empty
buffers, the ring builder emits `n + 1` ring records, their `min_km`
column is `0` followed by the distances (hence strictly increasing and
starting at `0`), their `max_km` column is the distances followed by the
open-ended `none`, and the labels follow the `0-d1km`, `di-djkm`, `>dnkm`
pattern; a single distance thus yields exactly two rings. -/
theorem C2_ring_records (roads : List Geometry) (aoi : Geometry)
    {dists : List ℚ} {c : ℕ} (hc : 1 ≤ c)
    (hsorted : List.Sorted (· < ·) dists) (hne : dists ≠ [])
    (hpos : ∀ d ∈ dists, 0 < d)
    (hbuf : ∀ d ∈ dists, (bufferUnionClip roads aoi ((d : ℝ) * 1000)).Nonempty)
    (rings : List RingRec)
    (hok : mainRings roads aoi dists c = Except.ok rings) :
    rings.length = dists.length + 1 ∧
      rings.map RingRec.min_km = 0 :: dists ∧
      List.Chain' (· < ·) (rings.map RingRec.min_km) ∧
      rings.map RingRec.max_km = dists.map some ++ [none] ∧
      rings.map RingRec.ring_id =
        ringLabel 0 (dists.head hne) ::
          (List.zipWith ringLabel dists dists.tail ++
            [lastLabel (dists.getLast hne)]) := by
  rw [mainRings_eq_ok roads aoi hc hsorted hne hbuf] at hok
  injection hok with hok
  subst hok
  have hblne : dists.map
      (fun (d : ℚ) => (d, bufferUnionClip roads aoi ((d : ℝ) * 1000))) ≠ [] := by
    intro hnil
    exact hne (List.map_eq_nil_iff.mp hnil)
  have hfst := map_fst_pairs roads aoi dists
  refine ⟨?_, ?_, ?_, ?_, ?_⟩
  · rw [buildRings_length aoi _ hblne, List.length_map]
  · rw [buildRings_map_min aoi _ hblne, hfst]
  · rw [buildRings_map_min aoi _ hblne, hfst, List.chain'_cons']
    constructor
    · intro y hy
      cases dists with
      | nil => exact absurd rfl hne
      | cons a l =>
        simp only [List.head?_cons, Option.mem_def, Option.some.injEq] at hy
        subst hy
        exact hpos a (List.mem_cons_self a l)
    · exact List.Pairwise.chain' hsorted
  · rw [buildRings_map_max aoi _ hblne, hfst]
  · rw [buildRings_map_id aoi _ hblne, hfst]
    have hhead : ((dists.map
        (fun (d : ℚ) => (d, bufferUnionClip roads aoi ((d : ℝ) * 1000)))).head
          hblne).1 = dists.head hne := by
      cases dists with
      | nil => exact absurd rfl hne
      | cons a l => rfl
    have hlast : ((dists.map
        (fun (d : ℚ) => (d, bufferUnionClip roads aoi ((d : ℝ) * 1000)))).getLast
          hblne).1 = dists.getLast hne := by
      rw [List.getLast_map]
    rw [hhead, hlast]

/-! ### Concrete witness input: one degenerate road segment at the
origin, the whole plane as AOI, distance list `[1]`, chunk size 1. -/

def roadsW : List Geometry := [{(0 : Pt)}]

def aoiW : Geometry := Set.univ

theorem hsortedW : List.Sorted (· < ·) [(1 : ℚ)] := List.sorted_singleton 1

theorem hneW : [(1 : ℚ)] ≠ [] := List.cons_ne_nil 1 []

theorem hposW : ∀ d ∈ [(1 : ℚ)], 0 < d := by
  intro d hd
  simp only [List.mem_singleton] at hd
  subst hd
  norm_num

theorem hbufW_all (d : ℚ) (hd : 0 ≤ d) :
    (bufferUnionClip roadsW aoiW ((d : ℝ) * 1000)).Nonempty := by
  refine ⟨0, ?_, Set.mem_univ 0⟩
  refine mem_unary_union.mpr ⟨buffer {(0 : Pt)} ((d : ℝ) * 1000), ?_, ?_⟩
  · exact List.mem_map.mpr ⟨{(0 : Pt)}, List.mem_cons_self _ _, rfl⟩
  · refine ⟨0, rfl, ?_⟩
    rw [dist_self]
    have hd' : (0 : ℝ) ≤ (d : ℝ) := by exact_mod_cast hd
    nlinarith

theorem hbufW :
    ∀ d ∈ [(1 : ℚ)], (bufferUnionClip roadsW aoiW ((d : ℝ) * 1000)).Nonempty := by
  intro d hd
  simp only [List.mem_singleton] at hd
  subst hd
  exact hbufW_all 1 (by norm_num)

/-- The ring list of the concrete witness run. -/
noncomputable def ringsW : List RingRec :=
  buildRings aoiW
    ([(1 : ℚ)].map (fun (d : ℚ) => (d, bufferUnionClip roadsW aoiW ((d : ℝ) * 1000))))

theorem mainRingsW :
    mainRings roadsW aoiW [(1 : ℚ)] 1 = Except.ok ringsW :=
  mainRings_eq_ok roadsW aoiW le_rfl hsortedW hneW hbufW

/-- Witness for C1 at the concrete input. -/
theorem C1_ring_partition_witness :
    ringsW.Pairwise (fun r s => r.geometry ∩ s.geometry = ∅) ∧
      unary_union (ringsW.map RingRec.geometry) = aoiW :=
  C1_ring_partition roadsW aoiW le_rfl hsortedW hneW hbufW ringsW mainRingsW

/-- Witness for C2 at the concrete input. -/
theorem C2_ring_records_witness :
    ringsW.length = 2 ∧
      ringsW.map RingRec.min_km = [0, 1] ∧
      List.Chain' (· < ·) (ringsW.map RingRec.min_km) ∧
      ringsW.map RingRec.max_km = [some 1, none] ∧
      ringsW.map RingRec.ring_id = ["0-1km", ">1km"] := by
  have h := C2_ring_records roadsW aoiW le_rfl hsortedW hneW hposW hbufW
    ringsW mainRingsW
  obtain ⟨h1, h2, h3, h4, h5⟩ := h
  refine ⟨h1, h2, h3, h4, ?_⟩
  rw [h5]
  rfl

/-! ### C3: the distance list is silently sorted and deduplicated -/

def exceptIsOk {ε α : Type} : Except ε α → Bool
  | Except.ok _ => true
  | Except.error _ => false

theorem sortDedup_idem (l : List ℚ) : sortDedup (sortDedup l) = sortDedup l := by
  rw [sortDedup, sortDedup]
  have hnd : (l.dedup.insertionSort (· ≤ ·)).Nodup :=
    ((List.perm_insertionSort (· ≤ ·) l.dedup).nodup_iff).mpr (List.nodup_dedup l)
  rw [List.Nodup.dedup hnd]
  exact List.Sorted.insertionSort_eq
    (List.sorted_insertionSort (· ≤ ·) l.dedup)

/-- C3 (counterexample): the out-of-order list `[10, 5]` does not make
the ring builder fail: it behaves exactly like `[5, 10]` and succeeds. -/
theorem C3_counterexample :
    mainRings roadsW aoiW [10, 5] 1 = mainRings roadsW aoiW [5, 10] 1 ∧
      exceptIsOk (mainRings roadsW aoiW [10, 5] 1) = true := by
  have h1 : sortDedup [(10 : ℚ), 5] = [5, 10] := by decide
  have h2 : sortDedup [(5 : ℚ), 10] = [5, 10] := by decide
  have heq : mainRings roadsW aoiW [10, 5] 1 = mainRings roadsW aoiW [5, 10] 1 := by
    rw [mainRings, mainRings, h1, h2]
  refine ⟨heq, ?_⟩
  have hbuf : ∀ d ∈ [(5 : ℚ), 10],
      (bufferUnionClip roadsW aoiW ((d : ℝ) * 1000)).Nonempty := by
    intro d hd
    simp only [List.mem_cons, List.not_mem_nil, or_false] at hd
    rcases hd with rfl | rfl
    · exact hbufW_all 5 (by norm_num)
    · exact hbufW_all 10 (by norm_num)
  have hok := mainRings_eq_ok roadsW aoiW le_rfl
    (by decide : List.Sorted (· < ·) [(5 : ℚ), 10]) (by decide) hbuf
  rw [heq, hok]
  rfl

/-- C3 (amended): instead of failing fast on out-of-order or duplicate
distance lists, the ring builder silently deduplicates and sorts the list
and continues: its output on any list equals its output on the sorted,
deduplicated list. -/
theorem C3_silent_sort_dedup (roads : List Geometry) (aoi : Geometry)
    (dists : List ℚ) (c : ℕ) :
    mainRings roads aoi dists c = mainRings roads aoi (sortDedup dists) c := by
  rw [mainRings, mainRings, sortDedup_idem]

/-! ### C6: chunking does not change the geometry -/

/-- C6: the chunked buffer computation agrees with the single-pass
buffer-union-clip for every chunk size `≥ 1`, and consequently the whole
ring builder gives identical output for any two chunk sizes. -/
theorem C6_chunking_idempotent (roads : List Geometry) (aoi : Geometry)
    (d : ℝ) (dists : List ℚ) {c c1 c2 : ℕ}
    (hc : 1 ≤ c) (hc1 : 1 ≤ c1) (hc2 : 1 ≤ c2) :
    buffer_in_chunks roads aoi d c = bufferSinglePass roads aoi d ∧
      mainRings roads aoi dists c1 = mainRings roads aoi dists c2 := by
  refine ⟨buffer_in_chunks_eq roads aoi d hc, ?_⟩
  have h : ∀ c', 1 ≤ c' → buffersOf roads aoi (sortDedup dists) c' =
      (sortDedup dists).filterMap (fun (e : ℚ) =>
        (bufferSinglePass roads aoi ((e : ℝ) * 1000)).map (fun g => (e, g))) := by
    intro c' hc'
    rw [buffersOf]
    exact List.filterMap_congr (fun e _ => by
      rw [buffer_in_chunks_eq roads aoi _ hc'])
  rw [mainRings, mainRings, h c1 hc1, h c2 hc2]

/-- Witness for C6 at the concrete input. -/
theorem C6_chunking_idempotent_witness :
    buffer_in_chunks roadsW aoiW 5 1 = bufferSinglePass roadsW aoiW 5 ∧
      mainRings roadsW aoiW [1] 1 = mainRings roadsW aoiW [1] 2 :=
  C6_chunking_idempotent roadsW aoiW 5 [1] le_rfl le_rfl (by norm_num)

/-! ### C9: a distance whose buffer union is empty is skipped, and no
ring is emitted for it -/

/-- A single point at distance 7000 m from the origin: the AOI of the C9
scenario.  The 5 km buffer of the origin road misses it, the 10 km buffer
reaches it. -/
noncomputable def q9 : Pt := EuclideanSpace.single (0 : Fin 2) (7000 : ℝ)

def roads9 : List Geometry := [{(0 : Pt)}]

noncomputable def aoi9 : Geometry := {q9}

theorem dist_q9 : dist q9 (0 : Pt) = 7000 := by
  rw [dist_zero_right, q9, EuclideanSpace.norm_single]
  norm_num

theorem buffer5_empty :
    bufferUnionClip roads9 aoi9 (((5 : ℚ) : ℝ) * 1000) = ∅ := by
  apply Set.eq_empty_iff_forall_not_mem.mpr
  rintro p ⟨hpu, hpa⟩
  obtain ⟨g, hg, hpg⟩ := mem_unary_union.mp hpu
  simp only [roads9, List.map_cons, List.map_nil, List.mem_singleton] at hg
  subst hg
  obtain ⟨r, hr, hdr⟩ := hpg
  rw [Set.mem_singleton_iff] at hr
  subst hr
  simp only [aoi9, Set.mem_singleton_iff] at hpa
  subst hpa
  rw [dist_q9] at hdr
  norm_num at hdr

theorem buffer10_nonempty :
    (bufferUnionClip roads9 aoi9 (((10 : ℚ) : ℝ) * 1000)).Nonempty := by
  refine ⟨q9, ?_, by simp only [aoi9, Set.mem_singleton_iff]⟩
  refine mem_unary_union.mpr ⟨buffer {(0 : Pt)} (((10 : ℚ) : ℝ) * 1000), ?_, ?_⟩
  · exact List.mem_map.mpr ⟨{(0 : Pt)}, List.mem_cons_self _ _, rfl⟩
  · refine ⟨0, rfl, ?_⟩
    rw [dist_q9]
    norm_num

/-- C9 (counterexample): with distances `[5, 10]`, a road at the origin
and an AOI 7 km away, the 5 km buffer union is empty while the 10 km one
is not; the ring builder succeeds but emits only the two rings
`0-10km` and `>10km` — no ring at all corresponds to the empty 5 km
buffer union, rather than a ring degenerating to the AOI minus the
previous rings. -/
theorem C9_counterexample :
    (mainRings roads9 aoi9 [5, 10] 1).map (fun rs => rs.map RingRec.ring_id) =
      Except.ok ["0-10km", ">10km"] := by
  have h5 : ¬ (bufferUnionClip roads9 aoi9 (((5 : ℚ) : ℝ) * 1000)).Nonempty := by
    rw [buffer5_empty]
    exact Set.not_nonempty_empty
  have hsd : sortDedup [(5 : ℚ), 10] = [5, 10] := by decide
  rw [mainRings, hsd, buffersOf, List.filterMap_cons, List.filterMap_cons,
    List.filterMap_nil, buffer_in_chunks_eq roads9 aoi9 _ le_rfl,
    buffer_in_chunks_eq roads9 aoi9 _ le_rfl, bufferSinglePass, bufferSinglePass,
    if_neg h5, if_pos buffer10_nonempty]
  simp only [Option.map_none', Option.map_some']
  rfl

/-- C9 (amended): when at least one distance has a non-empty buffer
union, the ring builder does not fail: it returns the rings built from
the non-empty buffers only — every distance whose buffer union is empty
is skipped, its band being absorbed by the next non-empty distance. -/
theorem C9_empty_buffer_skipped (roads : List Geometry) (aoi : Geometry)
    (dists : List ℚ) {c : ℕ} (hc : 1 ≤ c)
    (hex : ∃ d ∈ sortDedup dists,
      (bufferUnionClip roads aoi ((d : ℝ) * 1000)).Nonempty) :
    mainRings roads aoi dists c =
      Except.ok (buildRings aoi ((sortDedup dists).filterMap (fun (d : ℚ) =>
        if (bufferUnionClip roads aoi ((d : ℝ) * 1000)).Nonempty then
          some (d, bufferUnionClip roads aoi ((d : ℝ) * 1000))
        else none))) := by
  have hbo : buffersOf roads aoi (sortDedup dists) c =
      (sortDedup dists).filterMap (fun (d : ℚ) =>
        if (bufferUnionClip roads aoi ((d : ℝ) * 1000)).Nonempty then
          some (d, bufferUnionClip roads aoi ((d : ℝ) * 1000))
        else none) := by
    rw [buffersOf]
    refine List.filterMap_congr (fun e _ => ?_)
    rw [buffer_in_chunks_eq roads aoi _ hc, bufferSinglePass]
    by_cases he : (bufferUnionClip roads aoi ((e : ℝ) * 1000)).Nonempty
    · rw [if_pos he, if_pos he, Option.map_some']
    · rw [if_neg he, if_neg he, Option.map_none']
  obtain ⟨d, hd, hne⟩ := hex
  rw [mainRings, hbo, if_neg]
  intro hemp
  rw [List.isEmpty_iff] at hemp
  have hmem : (d, bufferUnionClip roads aoi ((d : ℝ) * 1000)) ∈
      (sortDedup dists).filterMap (fun (d : ℚ) =>
        if (bufferUnionClip roads aoi ((d : ℝ) * 1000)).Nonempty then
          some (d, bufferUnionClip roads aoi ((d : ℝ) * 1000))
        else none) :=
    List.mem_filterMap.mpr ⟨d, hd, by rw [if_pos hne]⟩
  rw [hemp] at hmem
  cases hmem

/-- Witness for the amended C9 at the concrete two-distance input. -/
theorem C9_empty_buffer_skipped_witness :
    mainRings roads9 aoi9 [5, 10] 1 =
      Except.ok (buildRings aoi9 ((sortDedup [5, 10]).filterMap (fun (d : ℚ) =>
        if (bufferUnionClip roads9 aoi9 ((d : ℝ) * 1000)).Nonempty then
          some (d, bufferUnionClip roads9 aoi9 ((d : ℝ) * 1000))
        else none))) :=
  C9_empty_buffer_skipped roads9 aoi9 [5, 10] le_rfl
    ⟨10, by decide, buffer10_nonempty⟩

/-! ## The overlay engine
(04_intersection.py, 05_precompute_intersections.py, 06_build_duckdb.py) -/

/-- One deforestation feature row.  `year` holds the value of the year
attribute when the dataset has a year column (it is only read after the
column check succeeded). -/
structure DefRow where
  year : ℚ
  geometry : Geometry

/-- The deforestation dataset: its attribute column names (`geometry`
excluded, it is implicit in the rows) and its feature rows. -/
structure DefDataset where
  cols : List String
  rows : List DefRow

/-- Python `str.lower()`: lower-case every character.  (Defined by
mapping over the character list; the core `String.toLower` is equivalent
but defined by well-founded recursion over byte positions.) -/
def str_lower (s : String) : String := String.mk (s.data.map Char.toLower)

/-- `find_year_col` (04_intersection.py lines 58-62, and the
`next(...)` generator of 05_precompute_intersections.py line 72): the
first column whose lower-cased name is `year`. -/
def find_year_col (cols : List String) : Option String :=
  cols.find? (fun c => str_lower c == "year")

/-- The attribute columns of the overlay output: the overlay keeps the
left side attributes and adds the right side `ring_id`
(05_precompute_intersections.py line 72 searches these for `year`). -/
def interCols (cols : List String) : List String := cols ++ ["ring_id"]

/-- One raw overlay result row, before area computation. -/
structure InterRow where
  ring_id : String
  year : ℚ
  geometry : Geometry

/-- `gpd.overlay(prodes, rings, how="intersection")` in point-set
semantics (04_intersection.py line 99, 05_precompute_intersections.py
line 59): every (feature, ring) pair whose geometries meet yields one row
tagged with the ring id and the feature year, geometry the
intersection. -/
noncomputable def overlayIntersection (prodes : List DefRow)
    (rings : List (String × Geometry)) : List InterRow :=
  prodes.flatMap (fun p => rings.filterMap (fun r =>
    if (p.geometry ∩ r.2).Nonempty then
      some ⟨r.1, p.year, p.geometry ∩ r.2⟩
    else none))

/-- `gpd.clip(gdf, mask)` (04_intersection.py line 89,
05_precompute_intersections.py line 55): intersect every row with the
mask, dropping rows whose intersection is empty. -/
noncomputable def clipRows (rows : List DefRow) (mask : Geometry) : List DefRow :=
  rows.filterMap (fun r =>
    if (r.geometry ∩ mask).Nonempty then
      some ⟨r.year, r.geometry ∩ mask⟩
    else none)

/-- shapely `.envelope`: the axis-aligned bounding box spanned by the
infima and suprema of the coordinate projections of a geometry. -/
def envelope (g : Geometry) : Geometry :=
  {p | ∀ i : Fin 2, sInf ((fun q => q i) '' g) ≤ p i ∧
    p i ≤ sSup ((fun q => q i) '' g)}

/-- `inter.geometry.area / 10_000.0` (04_intersection.py line 124,
05_precompute_intersections.py line 76): geometric area (the plane
Lebesgue measure, in m² in EPSG:5880) over 10000 gives hectares. -/
noncomputable def areaHa (g : Geometry) : ℝ :=
  (MeasureTheory.volume g).toReal / 10000

/-- numpy rounding used by `astype(float).round().astype(int)`
(04_intersection.py line 128, 05_precompute_intersections.py line 79):
round half to even. -/
def roundHalfEven (q : ℚ) : ℤ :=
  if q - ⌊q⌋ < 1/2 then ⌊q⌋
  else if 1/2 < q - ⌊q⌋ then ⌊q⌋ + 1
  else if 2 ∣ ⌊q⌋ then ⌊q⌋ else ⌊q⌋ + 1

/-- A finished intersection feature, after
`keep = [ring_id, year_col, area_ha, geometry]`: the schema of the
saved GeoParquet. -/
structure InterRec where
  ring_id : String
  year : ℤ
  area_ha : ℝ
  geometry : Geometry

/-- Area computation plus year normalisation applied to the raw overlay
rows (04_intersection.py lines 124-133, 05_precompute_intersections.py
lines 76-84). -/
noncomputable def withArea (rows : List InterRow) : List InterRec :=
  rows.map (fun r => ⟨r.ring_id, roundHalfEven r.year, areaHa r.geometry,
    r.geometry⟩)

/-- `groupby(keys)[area_ha].sum()` for one group: the sum of `area_ha`
over the rows with the given key. -/
def sumBy {α κ : Type} [DecidableEq κ] (key : α → κ) (f : α → ℝ)
    (l : List α) (k : κ) : ℝ :=
  ((l.filter (fun x => key x = k)).map f).sum

/-- `sort_values([year_col, "ring_id"])`: ascending by year then ring. -/
def yrLE (a b : String × ℤ × ℝ) : Prop :=
  a.2.1 < b.2.1 ∨ (a.2.1 = b.2.1 ∧ a.1 ≤ b.1)

/-- `sort_values("area_ha", ascending=False)`: descending by area. -/
def areaDesc (a b : String × ℝ) : Prop := b.2 ≤ a.2

/-- `ORDER BY ring_id` of 06_build_duckdb.py. -/
def ridLE (a b : String × ℝ) : Prop := a.1 ≤ b.1

/-- The `by_ring_year` aggregate (04_intersection.py lines 141-145,
05_precompute_intersections.py lines 92-94): sum `area_ha` by
`(ring_id, year)`, then sort by year and ring id. -/
noncomputable def by_ring_year (rows : List InterRec) :
    List (String × ℤ × ℝ) :=
  (((rows.map (fun r => (r.ring_id, r.year))).dedup).map
    (fun k => (k.1, k.2,
      sumBy (fun r => (r.ring_id, r.year)) InterRec.area_ha rows k))).insertionSort
    yrLE

/-- The `by_ring` aggregate (04_intersection.py lines 146-149,
05_precompute_intersections.py lines 95-96): sum `area_ha` by `ring_id`,
then sort by area descending. -/
noncomputable def by_ring (rows : List InterRec) : List (String × ℝ) :=
  (((rows.map InterRec.ring_id).dedup).map
    (fun k => (k, sumBy InterRec.ring_id InterRec.area_ha rows k))).insertionSort
    areaDesc

/-- The duckdb `by_ring` table (06_build_duckdb.py lines 42-48): group
the `by_ring_year` table by `ring_id`, sum `area_ha`, order by ring id. -/
noncomputable def by_ring_duckdb (t : List (String × ℤ × ℝ)) :
    List (String × ℝ) :=
  (((t.map (fun e => e.1)).dedup).map
    (fun k => (k,
      sumBy (fun e => e.1) (fun e => e.2.2) t k))).insertionSort ridLE

/-- The overlay outputs: the intersection feature set (whose columns
`ring_id`, `year`, `area_ha`, `geometry` are the fields of `InterRec`)
and the two aggregate tables. -/
structure InterOut where
  features : List InterRec
  ring_year : List (String × ℤ × ℝ)
  ring_total : List (String × ℝ)

/-- The well-formed empty output written when the intersection is empty
(04_intersection.py lines 113-121, 05_precompute_intersections.py lines
61-68): an empty feature set with the same columns, and two empty
aggregate tables. -/
def emptyInterOut : InterOut := ⟨[], [], []⟩

/-- `_fix_geoms` (05_precompute_intersections.py lines 28-43):
`make_valid`, exploding of multi-part geometries and dropping of
non-polygonal fragments.  In the point-set semantics a geometry has no
invalid representation and no multi-part structure, and every modelled
geometry is a plain two-dimensional point set, so the repair is the
identity on the rows. -/
def fix_geoms {α : Type} (rows : List α) : List α := rows

/-- The raw overlay result of 05_precompute_intersections.py lines
46-59: sanitize both inputs, clip the deforestation rows to the bounding
envelope of the rings union, then overlay with the rings. -/
noncomputable def inter05 (rings : List (String × Geometry))
    (prodes : DefDataset) : List InterRow :=
  overlayIntersection
    (clipRows (fix_geoms prodes.rows)
      (envelope (unary_union ((fix_geoms rings).map Prod.snd))))
    (fix_geoms rings)

/-- The module body of 05_precompute_intersections.py, from loaded
rings and deforestation data to its outputs.  When the overlay is empty
it writes well-formed empty outputs (lines 61-68) without looking for a
year column; otherwise it requires a year column (lines 72-74, a missing
one raises `RuntimeError`, modelled as the error value), computes areas,
normalises years and aggregates (lines 76-99). -/
noncomputable def main05 (rings : List (String × Geometry))
    (prodes : DefDataset) : Except String InterOut :=
  if (inter05 rings prodes).isEmpty then
    Except.ok emptyInterOut
  else
    match find_year_col (interCols prodes.cols) with
    | none => Except.error "Coluna year nao encontrada no PRODES recortado."
    | some _ =>
      Except.ok ⟨withArea (inter05 rings prodes),
        by_ring_year (withArea (inter05 rings prodes)),
        by_ring (withArea (inter05 rings prodes))⟩

/-- Modelled from the spec (section 4.2 step 1: the pre-clip is "a pure
performance optimization with no semantic effect") for comparison with
`main05`: the same engine without the bounding-envelope pre-clip. -/
noncomputable def main05_no_preclip (rings : List (String × Geometry))
    (prodes : DefDataset) : Except String InterOut :=
  if (overlayIntersection (fix_geoms prodes.rows) (fix_geoms rings)).isEmpty then
    Except.ok emptyInterOut
  else
    match find_year_col (interCols prodes.cols) with
    | none => Except.error "Coluna year nao encontrada no PRODES recortado."
    | some _ =>
      Except.ok
        ⟨withArea (overlayIntersection (fix_geoms prodes.rows) (fix_geoms rings)),
        by_ring_year (withArea
          (overlayIntersection (fix_geoms prodes.rows) (fix_geoms rings))),
        by_ring (withArea
          (overlayIntersection (fix_geoms prodes.rows) (fix_geoms rings)))⟩

/-- `main` of 04_intersection.py as written: after loading, it checks
the year column (lines 80-83) and then executes line 86,
`bbox = unary_union(rings.geometry.values).envelope` — but `unary_union`
is never imported in this script (its imports, lines 23-27, are pathlib,
sys, argparse, geopandas and pandas only).  Running it therefore raises
`NameError` at the pre-clip step, before any overlay is attempted, and
no parquet or CSV output is produced; the error value models the
uncaught exception. -/
def main04 (rings : List (String × Geometry)) (prodes : DefDataset) :
    Except String InterOut :=
  match find_year_col prodes.cols with
  | none => Except.error "Coluna year nao encontrada no PRODES."
  | some _ => Except.error "NameError: name unary_union is not defined"

/-- Modelled from the spec (section 4.2 step 1) for comparison with
`main04`: the 04 overlay engine without the pre-clip step, executing the
remainder of `main` (04_intersection.py lines 95-154) with its intended
semantics.  In the exact point-set semantics the primary overlay does
not throw, so the per-ring clip fallback (lines 100-111) is not
reached. -/
noncomputable def main04_no_preclip (rings : List (String × Geometry))
    (prodes : DefDataset) : Except String InterOut :=
  match find_year_col prodes.cols with
  | none => Except.error "Coluna year nao encontrada no PRODES."
  | some _ =>
    if (overlayIntersection prodes.rows rings).isEmpty then
      Except.ok emptyInterOut
    else
      Except.ok ⟨withArea (overlayIntersection prodes.rows rings),
        by_ring_year (withArea (overlayIntersection prodes.rows rings)),
        by_ring (withArea (overlayIntersection prodes.rows rings))⟩

/-! ### C10: the missing `unary_union` import of 04_intersection.py -/

/-- C10: whenever both inputs load and a year column is found, `main` of
04_intersection.py raises `NameError` at the pre-clip step (line 86 uses
`unary_union`, which its imports never bind), before any overlay, and
produces no parquet or CSV output. -/
theorem C10_main04_name_error (rings : List (String × Geometry))
    (prodes : DefDataset) (y : String)
    (hy : find_year_col prodes.cols = some y) :
    main04 rings prodes =
      Except.error "NameError: name unary_union is not defined" := by
  rw [main04, hy]

/-- Witness for C10 at a concrete input. -/
theorem C10_main04_name_error_witness :
    find_year_col ["year"] = some "year" ∧
      main04 [("0-5km", (Set.univ : Geometry))] ⟨["year"], []⟩ =
        Except.error "NameError: name unary_union is not defined" :=
  ⟨by decide, C10_main04_name_error _ _ "year" (by decide)⟩

/-! ### C5: the year-column validation differs between 04 and 05 -/

/-- C5 (counterexample): a deforestation dataset with no year column and
no features: 05's overlay is empty, so it writes the well-formed empty
outputs and succeeds — it never checks the year column on this path. -/
theorem C5_counterexample :
    main05 [("0-5km", (Set.univ : Geometry))] ⟨["foo"], []⟩ =
      Except.ok emptyInterOut := rfl

/-- C5 (amended): a missing year column is a fatal error in 04 always
(checked before anything else), but in 05 only when the overlay is
non-empty; on an empty overlay 05 emits the empty outputs without
validating the column. -/
theorem C5_missing_year_column (rings : List (String × Geometry))
    (prodes : DefDataset)
    (h04 : find_year_col prodes.cols = none)
    (h05 : find_year_col (interCols prodes.cols) = none)
    (hne : ¬ (inter05 rings prodes).isEmpty = true) :
    main04 rings prodes =
        Except.error "Coluna year nao encontrada no PRODES." ∧
      main05 rings prodes =
        Except.error "Coluna year nao encontrada no PRODES recortado." := by
  constructor
  · rw [main04, h04]
  · rw [main05, if_neg hne, h05]

/-- The origin belongs to the envelope of the union of the single
geometry `{0}`. -/
theorem zero_mem_env5 :
    (0 : Pt) ∈ envelope (unary_union [({(0 : Pt)} : Geometry)]) := by
  rw [envelope, Set.mem_setOf_eq]
  intro i
  have himg : ((fun q => q i) '' unary_union [({(0 : Pt)} : Geometry)]) =
      {(0 : ℝ)} := by
    rw [unary_union_cons, unary_union_nil, Set.union_empty,
      Set.image_singleton]
    exact congrArg (fun x => ({x} : Set ℝ)) rfl
  rw [himg, csInf_singleton, csSup_singleton]
  exact ⟨le_refl _, le_refl _⟩

/-- With one ring at the origin and one deforestation polygon there, the
05 overlay is non-empty. -/
theorem inter5_nonempty :
    ¬ (inter05 [("0-5km", {(0 : Pt)})]
        ⟨["foo"], [⟨2020, {(0 : Pt)}⟩]⟩).isEmpty = true := by
  have hmask : (({(0 : Pt)} : Geometry) ∩
      envelope (unary_union [({(0 : Pt)} : Geometry)])).Nonempty :=
    ⟨0, rfl, zero_mem_env5⟩
  have hg : (((({(0 : Pt)} : Geometry) ∩
      envelope (unary_union [({(0 : Pt)} : Geometry)])) : Geometry) ∩
        ({(0 : Pt)} : Geometry)).Nonempty :=
    ⟨0, ⟨rfl, zero_mem_env5⟩, rfl⟩
  simp only [inter05, fix_geoms, clipRows, overlayIntersection,
    List.map_cons, List.map_nil, List.filterMap_cons, List.filterMap_nil,
    if_pos hmask, if_pos hg, List.flatMap_cons, List.flatMap_nil,
    List.append_nil]
  simp

/-- Witness for the amended C5 at the concrete input. -/
theorem C5_missing_year_column_witness :
    main04 [("0-5km", {(0 : Pt)})] ⟨["foo"], [⟨2020, {(0 : Pt)}⟩]⟩ =
        Except.error "Coluna year nao encontrada no PRODES." ∧
      main05 [("0-5km", {(0 : Pt)})] ⟨["foo"], [⟨2020, {(0 : Pt)}⟩]⟩ =
        Except.error "Coluna year nao encontrada no PRODES recortado." :=
  C5_missing_year_column _ _ (by decide) (by decide) inter5_nonempty

/-! ### C4: empty intersection handling -/

/-- C4 (counterexample): on an input with a year column and zero overlap
(no deforestation features at all), 04 does not emit the well-formed
empty output the claim demands: it fails with the NameError before any
overlay. -/
theorem C4_counterexample :
    main04 [("0-5km", (Set.univ : Geometry))] ⟨["year"], []⟩ =
      Except.error "NameError: name unary_union is not defined" := rfl

/-- C4 (amended): the 05 overlay engine, when the overlay yields zero
intersection features, terminates successfully with the well-formed
empty output (empty feature set with the `ring_id`, `year`, `area_ha`,
`geometry` schema and two empty aggregate tables); 04 as written instead
dies of the NameError before the overlay, and its per-ring clip fallback
treats zero features as fatal. -/
theorem C4_empty_intersection_ok (rings : List (String × Geometry))
    (prodes : DefDataset)
    (hemp : (inter05 rings prodes).isEmpty = true) :
    main05 rings prodes = Except.ok emptyInterOut := by
  rw [main05, if_pos hemp]

/-- Witness for the amended C4 at a concrete input. -/
theorem C4_empty_intersection_ok_witness :
    main05 [("0-5km", {(0 : Pt)})] ⟨["year"], []⟩ = Except.ok emptyInterOut :=
  C4_empty_intersection_ok _ _ rfl

/-! ### C7: the bounding-envelope pre-clip -/

/-- Each ring geometry is contained in the bounding envelope of the
rings union (when the union is coordinate-wise bounded). -/
theorem ring_subset_envelope {rings : List (String × Geometry)}
    (hb : ∀ i : Fin 2,
      BddBelow ((fun q => q i) '' unary_union (rings.map Prod.snd)) ∧
      BddAbove ((fun q => q i) '' unary_union (rings.map Prod.snd)))
    {r : String × Geometry} (hr : r ∈ rings) :
    r.2 ⊆ envelope (unary_union (rings.map Prod.snd)) := by
  intro p hp
  have hpU : p ∈ unary_union (rings.map Prod.snd) :=
    mem_unary_union.mpr ⟨r.2, List.mem_map.mpr ⟨r, hr, rfl⟩, hp⟩
  rw [envelope, Set.mem_setOf_eq]
  intro i
  exact ⟨csInf_le (hb i).1 ⟨p, hpU, rfl⟩, le_csSup (hb i).2 ⟨p, hpU, rfl⟩⟩

theorem overlay_cons (p : DefRow) (ps : List DefRow)
    (rings : List (String × Geometry)) :
    overlayIntersection (p :: ps) rings =
      (rings.filterMap (fun r =>
        if (p.geometry ∩ r.2).Nonempty then
          some ⟨r.1, p.year, p.geometry ∩ r.2⟩ else none)) ++
        overlayIntersection ps rings := by
  rw [overlayIntersection, overlayIntersection, List.flatMap_cons]

/-- Pre-clipping the deforestation rows to the bounding envelope of the
rings union does not change the overlay result. -/
theorem overlay_clip_env (rows : List DefRow)
    (rings : List (String × Geometry))
    (hb : ∀ i : Fin 2,
      BddBelow ((fun q => q i) '' unary_union (rings.map Prod.snd)) ∧
      BddAbove ((fun q => q i) '' unary_union (rings.map Prod.snd))) :
    overlayIntersection
      (clipRows rows (envelope (unary_union (rings.map Prod.snd)))) rings =
      overlayIntersection rows rings := by
  induction rows with
  | nil => rfl
  | cons p ps ih =>
    rw [clipRows, List.filterMap_cons]
    by_cases hpe : (p.geometry ∩
        envelope (unary_union (rings.map Prod.snd))).Nonempty
    · rw [if_pos hpe, ← clipRows, overlay_cons, overlay_cons, ih]
      have hhead : rings.filterMap (fun r =>
          if ((p.geometry ∩ envelope (unary_union (rings.map Prod.snd))) ∩
              r.2).Nonempty then
            some (InterRow.mk r.1 p.year
              ((p.geometry ∩ envelope (unary_union (rings.map Prod.snd))) ∩ r.2))
          else none) =
          rings.filterMap (fun r =>
            if (p.geometry ∩ r.2).Nonempty then
              some (InterRow.mk r.1 p.year (p.geometry ∩ r.2)) else none) := by
        refine List.filterMap_congr (fun r hr => ?_)
        have hsub : r.2 ⊆ envelope (unary_union (rings.map Prod.snd)) :=
          ring_subset_envelope hb hr
        have hgeq : (p.geometry ∩
            envelope (unary_union (rings.map Prod.snd))) ∩ r.2 =
            p.geometry ∩ r.2 := by
          rw [Set.inter_assoc]
          congr 1
          exact Set.inter_eq_self_of_subset_right hsub
        rw [hgeq]
      rw [hhead]
    · rw [if_neg hpe, ← clipRows, ih, overlay_cons]
      have hhead : rings.filterMap (fun r =>
          if (p.geometry ∩ r.2).Nonempty then
            some (InterRow.mk r.1 p.year (p.geometry ∩ r.2)) else none) = [] := by
        rw [List.filterMap_eq_nil_iff]
        intro r hr
        rw [if_neg]
        intro ⟨x, hx1, hx2⟩
        exact hpe ⟨x, hx1, ring_subset_envelope hb hr hx2⟩
      rw [hhead, List.nil_append]

/-- C7 (amended): in 05 the bounding-envelope pre-clip has no semantic
effect: the outputs with and without the pre-clip step are identical
(given the rings union is coordinate-wise bounded, as every real polygon
layer is).  In 04 as written the step is NOT semantically neutral, since
executing it raises the NameError (see the counterexample). -/
theorem C7_preclip_no_effect (rings : List (String × Geometry))
    (prodes : DefDataset)
    (hb : ∀ i : Fin 2,
      BddBelow ((fun q => q i) '' unary_union (rings.map Prod.snd)) ∧
      BddAbove ((fun q => q i) '' unary_union (rings.map Prod.snd))) :
    main05 rings prodes = main05_no_preclip rings prodes := by
  simp only [main05, main05_no_preclip, inter05, fix_geoms]
  rw [overlay_clip_env prodes.rows rings hb]

/-- C7 (counterexample): with a year column present and no features, 04
with its pre-clip step errors out (NameError) while the same engine
without the step succeeds with the empty output — the pre-clip step of
04 is not semantically neutral. -/
theorem C7_counterexample :
    main04 [("0-5km", {(0 : Pt)})] ⟨["year"], []⟩ ≠
      main04_no_preclip [("0-5km", {(0 : Pt)})] ⟨["year"], []⟩ := by
  have hL : main04 [("0-5km", {(0 : Pt)})] ⟨["year"], []⟩ =
      Except.error "NameError: name unary_union is not defined" := rfl
  have hR : main04_no_preclip [("0-5km", {(0 : Pt)})] ⟨["year"], []⟩ =
      Except.ok emptyInterOut := rfl
  rw [hL, hR]
  intro h
  exact Except.noConfusion h

/-- Witness for the amended C7 at a concrete input. -/
theorem C7_preclip_no_effect_witness :
    main05 [] ⟨["year"], []⟩ = main05_no_preclip [] ⟨["year"], []⟩ :=
  C7_preclip_no_effect [] ⟨["year"], []⟩ (fun i => by
    rw [show unary_union (([] : List (String × Geometry)).map Prod.snd) =
      (∅ : Geometry) from rfl, Set.image_empty]
    exact ⟨bddBelow_empty, bddAbove_empty⟩)

/-! ### C8: the two aggregates are consistent -/

/-- Sorting does not change a filtered sum. -/
theorem sum_filter_sort {β : Type} (r : β → β → Prop) [DecidableRel r]
    (l : List β) (p : β → Bool) (f : β → ℝ) :
    (((l.insertionSort r).filter p).map f).sum = ((l.filter p).map f).sum :=
  (((List.perm_insertionSort r l).filter p).map f).sum_eq

/-- Filtering by a condition that implies an earlier filter's condition
can be done before or after that filter. -/
theorem filter_of_imp {α : Type} (p q : α → Prop) [DecidablePred p]
    [DecidablePred q] (himp : ∀ x, q x → p x) (l : List α) :
    l.filter (fun x => q x) = (l.filter (fun x => p x)).filter (fun x => q x) := by
  induction l with
  | nil => rfl
  | cons x xs ih =>
    by_cases hq : q x
    · have hp := himp x hq
      simp [List.filter_cons, hp, hq, ih]
    · by_cases hp : p x
      · simp [List.filter_cons, hp, hq, ih]
      · simp [List.filter_cons, hp, hq, ih]

/-- Partition of a sum by a complete, duplicate-free key list: summing
the per-key group sums gives the total sum. -/
theorem sum_over_keys {α κ : Type} [DecidableEq κ] (key : α → κ) (f : α → ℝ) :
    ∀ ks : List κ, ks.Nodup → ∀ l : List α, (∀ x ∈ l, key x ∈ ks) →
      (ks.map (fun k => sumBy key f l k)).sum = (l.map f).sum := by
  intro ks
  induction ks with
  | nil =>
    intro _ l hcov
    have hl : l = [] := by
      cases l with
      | nil => rfl
      | cons x xs =>
        exact absurd (hcov x (List.mem_cons_self x xs)) (List.not_mem_nil _)
    subst hl
    rfl
  | cons k ks ih =>
    intro hnd l hcov
    have hknotin : k ∉ ks := (List.nodup_cons.mp hnd).1
    have hndks : ks.Nodup := (List.nodup_cons.mp hnd).2
    rw [List.map_cons, List.sum_cons]
    have hstepA : ks.map (fun j => sumBy key f l j) =
        ks.map (fun j => sumBy key f (l.filter (fun x => ¬ key x = k)) j) := by
      refine List.map_congr_left (fun j hj => ?_)
      have hjk : j ≠ k := fun h => hknotin (h ▸ hj)
      rw [sumBy, sumBy, filter_of_imp (fun x => ¬ key x = k)
        (fun x => key x = j) (fun x hx hk => hjk (hx.symm.trans hk)) l]
    rw [hstepA, ih hndks (l.filter (fun x => ¬ key x = k)) (fun x hx => by
      have hmem := List.mem_filter.mp hx
      have hxl := hmem.1
      have hxk : ¬ key x = k := by
        have := hmem.2
        rwa [decide_eq_true_eq] at this
      rcases List.mem_cons.mp (hcov x hxl) with h | h
      · exact absurd h hxk
      · exact h)]
    have hperm : List.Perm (l.filter (fun x => key x = k) ++
        l.filter (fun x => ¬ key x = k)) l := by
      have hfns : (fun x => decide (¬ key x = k)) =
          (fun x => ! decide (key x = k)) := by
        funext x
        exact decide_not
      have h2 := List.filter_append_perm (fun x => decide (key x = k)) l
      rw [← hfns] at h2
      exact h2
    calc sumBy key f l k + ((l.filter (fun x => ¬ key x = k)).map f).sum
        = ((l.filter (fun x => key x = k)).map f).sum +
            ((l.filter (fun x => ¬ key x = k)).map f).sum := rfl
      _ = (((l.filter (fun x => key x = k)) ++
            (l.filter (fun x => ¬ key x = k))).map f).sum := by
          rw [List.map_append, List.sum_append]
      _ = (l.map f).sum := (hperm.map f).sum_eq

/-- The filtered `by_ring` total of one ring. -/
theorem by_ring_filter_sum (rows : List InterRec) (rid : String) :
    (((by_ring rows).filter (fun e => e.1 = rid)).map (fun e => e.2)).sum =
      sumBy InterRec.ring_id InterRec.area_ha rows rid := by
  rw [by_ring, sum_filter_sort]
  rw [show ((rows.map InterRec.ring_id).dedup.map
      (fun k => (k, sumBy InterRec.ring_id InterRec.area_ha rows k))).filter
        (fun e => e.1 = rid) =
      (((rows.map InterRec.ring_id).dedup.filter (fun k => k = rid)).map
        (fun k => (k, sumBy InterRec.ring_id InterRec.area_ha rows k))) from
    List.filter_map _ _]
  rw [List.map_map]
  have hks : ∀ k ∈ (rows.map InterRec.ring_id).dedup.filter
      (fun k => k = rid), k = rid := by
    intro k hk
    have := (List.mem_filter.mp hk).2
    rwa [decide_eq_true_eq] at this
  have hcast : (((rows.map InterRec.ring_id).dedup.filter
      (fun k => k = rid)).map
      ((fun e => e.2) ∘ (fun k =>
        ((k, sumBy InterRec.ring_id InterRec.area_ha rows k) :
          String × ℝ)))) =
      ((rows.map InterRec.ring_id).dedup.filter (fun k => k = rid)).map
        (fun k => sumBy InterRec.ring_id InterRec.area_ha
          (rows.filter (fun r => r.ring_id = rid)) k) := by
    refine List.map_congr_left (fun k hk => ?_)
    have hkr := hks k hk
    subst hkr
    show sumBy InterRec.ring_id InterRec.area_ha rows k =
      sumBy InterRec.ring_id InterRec.area_ha
        (rows.filter (fun r => r.ring_id = k)) k
    rw [sumBy, sumBy, ← filter_of_imp (fun r => r.ring_id = k)
      (fun r => r.ring_id = k) (fun _ h => h) rows]
  rw [hcast]
  have hsum := sum_over_keys InterRec.ring_id InterRec.area_ha
    ((rows.map InterRec.ring_id).dedup.filter (fun k => k = rid))
    (List.Nodup.filter _ ((rows.map InterRec.ring_id).nodup_dedup))
    (rows.filter (fun r => r.ring_id = rid))
    (fun x hx => by
      have hmem := List.mem_filter.mp hx
      refine List.mem_filter.mpr ⟨List.mem_dedup.mpr
        (List.mem_map.mpr ⟨x, hmem.1, rfl⟩), ?_⟩
      rw [decide_eq_true_eq]
      have := hmem.2
      rwa [decide_eq_true_eq] at this)
  rw [hsum]
  rfl

/-- The filtered `by_ring_year` time series, summed over the years of
one ring. -/
theorem by_ring_year_filter_sum (rows : List InterRec) (rid : String) :
    (((by_ring_year rows).filter (fun e => e.1 = rid)).map
        (fun e => e.2.2)).sum =
      sumBy InterRec.ring_id InterRec.area_ha rows rid := by
  rw [by_ring_year, sum_filter_sort]
  rw [show ((rows.map (fun r => (r.ring_id, r.year))).dedup.map
      (fun k => (k.1, k.2, sumBy (fun r => (r.ring_id, r.year))
        InterRec.area_ha rows k))).filter (fun e => e.1 = rid) =
      (((rows.map (fun r => (r.ring_id, r.year))).dedup.filter
        (fun k => k.1 = rid)).map
        (fun k => (k.1, k.2, sumBy (fun r => (r.ring_id, r.year))
          InterRec.area_ha rows k))) from List.filter_map _ _]
  rw [List.map_map]
  have hcast : (((rows.map (fun r => (r.ring_id, r.year))).dedup.filter
      (fun k => k.1 = rid)).map
      ((fun e => e.2.2) ∘ (fun k =>
        ((k.1, k.2, sumBy (fun r => (r.ring_id, r.year))
          InterRec.area_ha rows k) : String × ℤ × ℝ)))) =
      ((rows.map (fun r => (r.ring_id, r.year))).dedup.filter
        (fun k => k.1 = rid)).map
        (fun k => sumBy (fun r => (r.ring_id, r.year)) InterRec.area_ha
          (rows.filter (fun r => r.ring_id = rid)) k) := by
    refine List.map_congr_left (fun k hk => ?_)
    have hk1 : k.1 = rid := by
      have := (List.mem_filter.mp hk).2
      rwa [decide_eq_true_eq] at this
    show sumBy (fun r => (r.ring_id, r.year)) InterRec.area_ha rows k =
      sumBy (fun r => (r.ring_id, r.year)) InterRec.area_ha
        (rows.filter (fun r => r.ring_id = rid)) k
    rw [sumBy, sumBy, ← filter_of_imp (fun r => r.ring_id = rid)
      (fun r => (r.ring_id, r.year) = k)
      (fun x hx => by
        have hx' : (x.ring_id, x.year) = k := hx
        have h1 : x.ring_id = k.1 := congrArg Prod.fst hx'
        show x.ring_id = rid
        rw [h1, hk1]) rows]
  rw [hcast]
  have hsum := sum_over_keys (fun (r : InterRec) => (r.ring_id, r.year))
    InterRec.area_ha
    ((rows.map (fun r => (r.ring_id, r.year))).dedup.filter
      (fun k => k.1 = rid))
    (List.Nodup.filter _
      ((rows.map (fun r => (r.ring_id, r.year))).nodup_dedup))
    (rows.filter (fun r => r.ring_id = rid))
    (fun x hx => by
      have hmem := List.mem_filter.mp hx
      refine List.mem_filter.mpr ⟨List.mem_dedup.mpr
        (List.mem_map.mpr ⟨x, hmem.1, rfl⟩), ?_⟩
      rw [decide_eq_true_eq]
      have := hmem.2
      rwa [decide_eq_true_eq] at this)
  rw [hsum]
  rfl

/-- The filtered duckdb `by_ring` total of one ring. -/
theorem by_ring_duckdb_filter_sum (t : List (String × ℤ × ℝ)) (rid : String) :
    (((by_ring_duckdb t).filter (fun e => e.1 = rid)).map (fun e => e.2)).sum =
      ((t.filter (fun e => e.1 = rid)).map (fun e => e.2.2)).sum := by
  rw [by_ring_duckdb, sum_filter_sort]
  rw [show ((t.map (fun e => e.1)).dedup.map
      (fun k => (k, sumBy (fun e => e.1) (fun e => e.2.2) t k))).filter
        (fun e => e.1 = rid) =
      (((t.map (fun e => e.1)).dedup.filter (fun k => k = rid)).map
        (fun k => (k, sumBy (fun e => e.1) (fun e => e.2.2) t k))) from
    List.filter_map _ _]
  rw [List.map_map]
  have hcast : (((t.map (fun e => e.1)).dedup.filter
      (fun k => k = rid)).map
      ((fun e => e.2) ∘ (fun k =>
        ((k, sumBy (fun e => e.1) (fun e => e.2.2) t k) : String × ℝ)))) =
      ((t.map (fun e => e.1)).dedup.filter (fun k => k = rid)).map
        (fun k => sumBy (fun e => e.1) (fun e => e.2.2)
          (t.filter (fun e => e.1 = rid)) k) := by
    refine List.map_congr_left (fun k hk => ?_)
    have hkr : k = rid := by
      have := (List.mem_filter.mp hk).2
      rwa [decide_eq_true_eq] at this
    subst hkr
    show sumBy (fun e => e.1) (fun e => e.2.2) t k =
      sumBy (fun e => e.1) (fun e => e.2.2)
        (t.filter (fun e => e.1 = k)) k
    rw [sumBy, sumBy, ← filter_of_imp (fun e => e.1 = k)
      (fun e => e.1 = k) (fun _ h => h) t]
  rw [hcast]
  have hsum := sum_over_keys (fun (e : String × ℤ × ℝ) => e.1)
    (fun (e : String × ℤ × ℝ) => e.2.2)
    ((t.map (fun e => e.1)).dedup.filter (fun k => k = rid))
    (List.Nodup.filter _ ((t.map (fun e => e.1)).nodup_dedup))
    (t.filter (fun e => e.1 = rid))
    (fun x hx => by
      have hmem := List.mem_filter.mp hx
      refine List.mem_filter.mpr ⟨List.mem_dedup.mpr
        (List.mem_map.mpr ⟨x, hmem.1, rfl⟩), ?_⟩
      rw [decide_eq_true_eq]
      have := hmem.2
      rwa [decide_eq_true_eq] at this)
  rw [hsum]

/-- C8: for every intersection feature set and every ring, the total of
the `by_ring` table equals the `by_ring_year` table summed over the
years of that ring (both equal the raw per-ring area sum); likewise the
duckdb `by_ring` table built from the `by_ring_year` table preserves
each ring's total. -/
theorem C8_aggregate_consistency :
    (∀ (rows : List InterRec) (rid : String),
      (((by_ring rows).filter (fun e => e.1 = rid)).map (fun e => e.2)).sum =
        (((by_ring_year rows).filter (fun e => e.1 = rid)).map
          (fun e => e.2.2)).sum) ∧
      ∀ (t : List (String × ℤ × ℝ)) (rid : String),
        (((by_ring_duckdb t).filter (fun e => e.1 = rid)).map
            (fun e => e.2)).sum =
          ((t.filter (fun e => e.1 = rid)).map (fun e => e.2.2)).sum := by
  constructor
  · intro rows rid
    rw [by_ring_filter_sum, by_ring_year_filter_sum]
  · intro t rid
    exact by_ring_duckdb_filter_sum t rid

end RoadRings
